import Mathlib

/-!
Shallow embedding of `src/data_collection/extract_data.py` from the
HebrewOCR repository, together with proofs about the two functions it
defines: `sanitize_filename` and `extract_pages_from_wikidump`.

Modelling decisions (all justified against the source):

* A Wikipedia dump is modelled as the list of its `page` elements in
  document order.  `ET.iterparse(path, events=("end",))` also emits the
  end events of every sub-element and of the enclosing root element, but
  the body of the loop acts only on elements whose tag ends in `page`;
  the only statement reached for other elements is the limit check on
  line 77, and that check depends only on `page_idx` and
  `n_skipped_pages`, which change only when a `page` element ends.
  Hence checking the limit once at the end of every page iteration
  (including iterations that execute `continue`, whose real check is
  merely deferred unchanged to the next end event) yields the same
  writes and the same returned `page_idx` — with one exception the page
  list cannot express: the code also runs the check at end events that
  precede the first page's own end event, with `page_idx = -1` and
  `n_skipped_pages = 0`, and that check fires exactly when
  `n_pages + start <= -1`.  In that degenerate corner the code may break
  before processing any page (whether it does depends on sub-page XML
  structure the page list does not record, e.g. whether the first page
  element has children), while the model still processes the first
  page.  Theorems whose truth touches this corner therefore carry a
  hypothesis excluding it (`0 <= n_pages` where relevant,
  `0 <= n_pages + start` for the abort-on-write claim); all other
  claims are unaffected because no writes, errors or skips can occur
  before the first page in either reading.

* One page element is modelled by the three observations the code makes
  of it: `title_elem` is `elem.find("{*}title")` together with its
  `.text` content (a missing element is `none`; an element whose `.text`
  is Python `None` is `some none`); `text_elem` is the composite
  `revision_elem.find("{*}text") if revision_elem is not None else None`
  from line 56, with the same two-level option; `redirect` records
  whether `elem.find("{*}redirect")` is not `None`.

* Machine integers: Python integers are unbounded, so `page_idx`,
  `n_skipped_pages`, `start` and `n_pages` are `Int` (`page_idx` starts
  at `-1`).  `n_pages = None` is `Option.none`.

* Filesystem effects are reified: the run result carries the list of
  per-page actions (the information the verbose log prints), from which
  the sequence of `(file name, content)` writes is read off.  The
  `output_dir` prefix added by `os.path.join` is a constant prefix on
  every name and is dropped.  Replaying the writes in order with
  last-write-wins semantics (`open(file_path, "w+")` truncates) gives
  the final directory contents.

* The two `TypeError`s Python can raise inside the write block are
  modelled as error results that carry the trace so far: line 68 raises
  when `title_elem.text` is `None` (`re.sub` rejects `None`) and line 74
  raises when `text_elem.text` is `None` (`f.write` rejects `None`).
  In the second case the real code has already created an empty file by
  opening it; that side effect is noted here but not modelled, and no
  theorem below depends on it.

* `verbose` only prints; it is not modelled.  `os.makedirs` and XML
  parse errors on malformed input are outside the claims considered.
-/

namespace ExtractData

/-- The nine characters matched by the regex character class in
`re.sub(r'[\\/*?:"<>|]', replacement, title)` on line 19. -/
def illegalChars : List Char := ['\\', '/', '*', '?', ':', '"', '<', '>', '|']

/-- Whether a character belongs to the regex character class. -/
def isIllegalChar (c : Char) : Bool := illegalChars.contains c

/-- Action of `re.sub` with a character-class pattern on a list of
characters: every matching character is replaced by the whole
replacement string, every other character is kept. -/
def sanitizeChars (replacement : List Char) : List Char → List Char
  | [] => []
  | c :: cs => (if isIllegalChar c then replacement else [c]) ++ sanitizeChars replacement cs

/-- Python `sanitize_filename(title, replacement)` (lines 6-19). -/
def sanitize_filename (title : String) (replacement : String) : String :=
  String.mk (sanitizeChars replacement.data title.data)

/-- Default value of the `replacement` parameter: a single space. -/
def default_replacement : String := " "

/-- One `page` element of the dump as the extractor observes it; see the
module docstring for the encoding of the three fields. -/
structure Page where
  title_elem : Option (Option String)
  text_elem : Option (Option String)
  redirect : Bool
deriving DecidableEq

/-- The disposition of one page element, i.e. what the loop body does
with it (this is exactly the information the verbose log prints). -/
inductive PageAction where
  | skipped_before_start : PageAction
  | skipped_redirect : PageAction
  | skipped_missing : PageAction
  | wrote (file_path : String) (content : String) : PageAction
deriving DecidableEq

/-- Message of the `TypeError` raised by `re.sub` on line 68 when
`title_elem.text` is `None`. -/
def sanitizeNoneError : String := "TypeError: expected string or bytes-like object"

/-- Message of the `TypeError` raised by `f.write` on line 74 when
`text_elem.text` is `None`. -/
def writeNoneError : String := "TypeError: write() argument must be str, not None"

/-- The body of the loop for one page element at index `page_idx`
(lines 50-74): the start-offset skip, the redirect skip, the
missing-element skip, and the file write, in source order. -/
def processPage (start : Int) (skip_redirects : Bool) (page_idx : Int) (p : Page) :
    Except String PageAction :=
  if page_idx < start then
    Except.ok PageAction.skipped_before_start
  else if skip_redirects && p.redirect then
    Except.ok PageAction.skipped_redirect
  else
    match p.title_elem, p.text_elem with
    | some title_text, some text_text =>
      match title_text with
      | none => Except.error sanitizeNoneError
      | some t =>
        match text_text with
        | none => Except.error writeNoneError
        | some txt =>
          Except.ok (PageAction.wrote (sanitize_filename t default_replacement ++ ".txt") txt)
    | _, _ => Except.ok PageAction.skipped_missing

/-- Line 77: `page_idx - start >= n_pages + n_skipped_pages`, with
`n_pages is not None`. -/
def limitReached (n_pages : Option Int) (start page_idx n_skipped : Int) : Bool :=
  match n_pages with
  | none => false
  | some n => decide (n + n_skipped ≤ page_idx - start)

/-- Line 62: `n_skipped_pages` is incremented exactly when the page was
skipped as a redirect. -/
def bumpSkipped : PageAction → Int → Int
  | PageAction.skipped_redirect, n => n + 1
  | _, n => n

/-- Outcome of a run: the per-page trace plus the returned `page_idx`,
or an uncaught exception together with the trace produced before it. -/
inductive ExtractResult where
  | ok (trace : List (Int × PageAction)) (page_idx : Int) : ExtractResult
  | err (msg : String) (trace : List (Int × PageAction)) : ExtractResult
deriving DecidableEq

/-- The per-page trace of a run, error or not. -/
def ExtractResult.traceAll : ExtractResult → List (Int × PageAction)
  | .ok tr _ => tr
  | .err _ tr => tr

/-- The write a trace entry performs, if any. -/
def actionWrite : Int × PageAction → Option (String × String)
  | (_, PageAction.wrote fp c) => some (fp, c)
  | _ => none

/-- The `(file name, content)` pairs a run writes, in order. -/
def ExtractResult.writes (r : ExtractResult) : List (String × String) :=
  r.traceAll.filterMap actionWrite

/-- Prepend one processed page to the result of the rest of the run. -/
def contWith (idx : Int) (a : PageAction) : ExtractResult → ExtractResult
  | .ok tr ret => .ok ((idx, a) :: tr) ret
  | .err msg tr => .err msg ((idx, a) :: tr)

/-- The main loop (lines 41-78): `page_idx` starts at `-1` and is
incremented at every page element; after each page the limit check of
line 77 may stop the run. -/
def extractGo (n_pages : Option Int) (start : Int) (skip_redirects : Bool) :
    List Page → Int → Int → ExtractResult
  | [], page_idx, _n_skipped => ExtractResult.ok [] page_idx
  | p :: rest, page_idx, n_skipped =>
    match processPage start skip_redirects (page_idx + 1) p with
    | Except.error msg => ExtractResult.err msg []
    | Except.ok a =>
      if limitReached n_pages start (page_idx + 1) (bumpSkipped a n_skipped) then
        ExtractResult.ok [(page_idx + 1, a)] (page_idx + 1)
      else
        contWith (page_idx + 1) a
          (extractGo n_pages start skip_redirects rest (page_idx + 1) (bumpSkipped a n_skipped))

/-- Python `extract_pages_from_wikidump(path, output_dir, n_pages,
start, skip_redirects, verbose)` (lines 22-88), with the dump given as
its list of page elements. -/
def extract_pages_from_wikidump (pages : List Page) (n_pages : Option Int)
    (start : Int) (skip_redirects : Bool) : ExtractResult :=
  extractGo n_pages start skip_redirects pages (-1) 0

/-- The empty output directory. -/
def emptyFS : String → Option String := fun _ => none

/-- One `open(file_path, "w+"); f.write(content)`: creates or truncates,
then writes. -/
def writeFile (fs : String → Option String) (w : String × String) : String → Option String :=
  fun name => if name = w.1 then some w.2 else fs name

/-- Directory contents after replaying a list of writes in order. -/
def replayWrites (ws : List (String × String)) : String → Option String :=
  ws.foldl writeFile emptyFS

/-- Shift the page index of one trace entry by `d`. -/
def shiftEntry (d : Int) (e : Int × PageAction) : Int × PageAction := (e.1 + d, e.2)

/-- Shift every page index of a result by `d`. -/
def ExtractResult.shift (d : Int) : ExtractResult → ExtractResult
  | .ok tr ret => .ok (tr.map (shiftEntry d)) (ret + d)
  | .err m tr => .err m (tr.map (shiftEntry d))

/-- Apply a function to every trace entry of a result. -/
def ExtractResult.mapTrace (f : Int × PageAction → Int × PageAction) :
    ExtractResult → ExtractResult
  | .ok tr ret => .ok (tr.map f) ret
  | .err m tr => .err m (tr.map f)

/-- Turn a write logged at page index `j` into a missing-element skip;
all other entries are unchanged. -/
def demoteAt (j : Int) (e : Int × PageAction) : Int × PageAction :=
  if e.1 = j then
    match e.2 with
    | PageAction.wrote _ _ => (e.1, PageAction.skipped_missing)
    | a => (e.1, a)
  else e

/-- A well-formed non-redirect page used as a concrete test input. -/
def pageGood : Page := ⟨some (some "T"), some (some "x"), false⟩

/-- A redirect page used as a concrete test input. -/
def pageRedirect : Page := ⟨some (some "R"), some (some "r"), true⟩

/-- A page missing both its title and text elements. -/
def pageMissing : Page := ⟨none, none, false⟩

example : sanitize_filename "a/b:c" default_replacement = "a b c" := by decide

/-! ### Lemmas about the sanitizer -/

theorem sanitizeChars_all_ok (repl : List Char)
    (hrepl : repl.all (fun c => !(isIllegalChar c)) = true) :
    ∀ cs : List Char, (sanitizeChars repl cs).all (fun c => !(isIllegalChar c)) = true := by
  intro cs
  induction cs with
  | nil => rfl
  | cons c cs ih =>
    by_cases hc : isIllegalChar c = true
    · simp only [sanitizeChars, if_pos hc, List.all_append, ih, Bool.and_true]
      exact hrepl
    · simp only [sanitizeChars, if_neg hc, List.singleton_append, List.all_cons, ih,
        Bool.and_true, Bool.not_eq_true', Bool.not_eq_true]
      simp only [Bool.not_eq_true] at hc
      simp [hc]

theorem sanitizeChars_id (repl : List Char) :
    ∀ cs : List Char, cs.all (fun c => !(isIllegalChar c)) = true → sanitizeChars repl cs = cs := by
  intro cs
  induction cs with
  | nil => intro _; rfl
  | cons c cs ih =>
    intro h
    simp only [List.all_cons, Bool.and_eq_true, Bool.not_eq_true'] at h
    simp [sanitizeChars, h.1, ih h.2]

example : extract_pages_from_wikidump [pageGood] none 0 true
    = ExtractResult.ok [(0, PageAction.wrote "T.txt" "x")] 0 := by decide

example : extract_pages_from_wikidump [pageRedirect, pageGood] none 0 true
    = ExtractResult.ok [(0, PageAction.skipped_redirect), (1, PageAction.wrote "T.txt" "x")] 1 := by
  decide

example : (extract_pages_from_wikidump
    [⟨some (some "A"), some (some "x"), false⟩, ⟨some (some "B"), some (some "y"), false⟩,
     ⟨some (some "C"), some (some "z"), false⟩] (some 1) 0 true).writes
    = [("A.txt", "x"), ("B.txt", "y")] := by decide

/-! ### Lemmas about the extraction loop -/

theorem traceAll_contWith (idx : Int) (a : PageAction) (r : ExtractResult) :
    (contWith idx a r).traceAll = (idx, a) :: r.traceAll := by
  cases r <;> rfl

theorem writes_contWith (idx : Int) (a : PageAction) (r : ExtractResult) :
    (contWith idx a r).writes = (actionWrite (idx, a)).toList ++ r.writes := by
  unfold ExtractResult.writes
  rw [traceAll_contWith, List.filterMap_cons]
  cases a <;> simp [actionWrite]

/-- Every entry of a run's trace sits at the index following its
position in the page list, and records exactly what `processPage` does
to the page at that position. -/
theorem extractGo_mem (np : Option Int) (st : Int) (sr : Bool) (pages : List Page) :
    ∀ (page_idx n_skipped i : Int) (a : PageAction),
      (i, a) ∈ (extractGo np st sr pages page_idx n_skipped).traceAll →
      ∃ j : Nat, i = page_idx + 1 + (j : Int) ∧
        ∃ p, pages.get? j = some p ∧ processPage st sr i p = Except.ok a := by
  induction pages with
  | nil =>
    intro page_idx sk i a h
    simp [extractGo, ExtractResult.traceAll] at h
  | cons p rest ih =>
    intro page_idx sk i a h
    rw [extractGo] at h
    cases hp : processPage st sr (page_idx + 1) p with
    | error msg =>
      rw [hp] at h
      simp [ExtractResult.traceAll] at h
    | ok a0 =>
      rw [hp] at h
      dsimp only at h
      by_cases hl : limitReached np st (page_idx + 1) (bumpSkipped a0 sk) = true
      · rw [if_pos hl] at h
        simp only [ExtractResult.traceAll, List.mem_singleton, Prod.mk.injEq] at h
        refine ⟨0, by omega, p, rfl, ?_⟩
        rw [h.1, h.2]
        exact hp
      · rw [if_neg hl, traceAll_contWith] at h
        rcases List.mem_cons.mp h with h0 | h1
        · obtain ⟨hi, ha⟩ := Prod.mk.injEq .. ▸ h0
          refine ⟨0, by omega, p, rfl, ?_⟩
          rw [hi, ha]
          exact hp
        · obtain ⟨j, hj, q, hq, hpq⟩ := ih (page_idx + 1) (bumpSkipped a0 sk) i a h1
          exact ⟨j + 1, by push_cast; omega, q, by simpa using hq, hpq⟩

/-- A successful run consumes some number `k` of leading pages, returns
`page_idx` advanced by exactly `k`, logs exactly `k` trace entries, and
behaves identically on the consumed pages alone. -/
theorem extractGo_take (np : Option Int) (st : Int) (sr : Bool) (pages : List Page) :
    ∀ (page_idx n_skipped : Int) (tr : List (Int × PageAction)) (ret : Int),
      extractGo np st sr pages page_idx n_skipped = ExtractResult.ok tr ret →
      ∃ k : Nat, k ≤ pages.length ∧ ret = page_idx + (k : Int) ∧ tr.length = k ∧
        extractGo np st sr (pages.take k) page_idx n_skipped = ExtractResult.ok tr ret := by
  induction pages with
  | nil =>
    intro page_idx sk tr ret h
    rw [extractGo] at h
    injection h with htr hret
    refine ⟨0, by simp, by omega, by rw [← htr]; rfl, ?_⟩
    show extractGo np st sr [] page_idx sk = _
    rw [extractGo, ← htr, ← hret]
  | cons p rest ih =>
    intro page_idx sk tr ret h
    rw [extractGo] at h
    cases hp : processPage st sr (page_idx + 1) p with
    | error msg =>
      rw [hp] at h
      simp at h
    | ok a0 =>
      rw [hp] at h
      dsimp only at h
      by_cases hl : limitReached np st (page_idx + 1) (bumpSkipped a0 sk) = true
      · rw [if_pos hl] at h
        injection h with htr hret
        refine ⟨1, by simp, by push_cast; omega, by rw [← htr]; rfl, ?_⟩
        show extractGo np st sr [p] page_idx sk = _
        rw [extractGo, hp]
        dsimp only
        rw [if_pos hl, htr, hret]
      · rw [if_neg hl] at h
        cases hrec : extractGo np st sr rest (page_idx + 1) (bumpSkipped a0 sk) with
        | err m tr2 => rw [hrec] at h; simp [contWith] at h
        | ok tr2 ret2 =>
          rw [hrec] at h
          simp only [contWith] at h
          injection h with htr hret
          obtain ⟨k, hk, hretk, hlen, htake⟩ := ih (page_idx + 1) (bumpSkipped a0 sk) tr2 ret2 hrec
          refine ⟨k + 1, by simp; omega, by push_cast; omega, ?_, ?_⟩
          · rw [← htr]; simp [hlen]
          · show extractGo np st sr (p :: rest.take k) page_idx sk = _
            rw [extractGo, hp]
            dsimp only
            rw [if_neg hl, htake, ← htr, ← hret]
            rfl

/-- Looking a name up after replaying a list of writes over some
directory state finds the last write with that name, if any. -/
theorem foldl_writeFile_lookup (name : String) :
    ∀ (ws : List (String × String)) (fs : String → Option String),
      (ws.foldl writeFile fs) name
        = match ws.reverse.find? (fun w => decide (w.1 = name)) with
          | some w => some w.2
          | none => fs name := by
  intro ws
  induction ws with
  | nil => intro fs; rfl
  | cons w ws ih =>
    intro fs
    show (ws.foldl writeFile (writeFile fs w)) name = _
    rw [ih (writeFile fs w), List.reverse_cons, List.find?_append]
    cases hfind : ws.reverse.find? (fun x => decide (x.1 = name)) with
    | some v => rfl
    | none =>
      show writeFile fs w name = _
      by_cases hw : w.1 = name
      · simp [writeFile, List.find?, hw]
      · simp [writeFile, List.find?, hw]
        intro h
        exact absurd h.symm hw

theorem processPage_before_start (st : Int) (sr : Bool) (idx : Int) (p : Page)
    (h : idx < st) : processPage st sr idx p = Except.ok PageAction.skipped_before_start := by
  unfold processPage
  rw [if_pos h]

theorem processPage_shift (d st idx : Int) (sr : Bool) (p : Page) :
    processPage (st + d) sr (idx + d) p = processPage st sr idx p := by
  unfold processPage
  simp only [add_lt_add_iff_right]

theorem limitReached_shift (np : Option Int) (d st idx sk : Int) :
    limitReached np (st + d) (idx + d) sk = limitReached np st idx sk := by
  cases np with
  | none => rfl
  | some n =>
    show decide _ = decide _
    rw [decide_eq_decide]
    omega

theorem shift_contWith (d idx : Int) (a : PageAction) (r : ExtractResult) :
    (contWith idx a r).shift d = contWith (idx + d) a (r.shift d) := by
  cases r <;> rfl

theorem actionWrite_shiftEntry (d : Int) (e : Int × PageAction) :
    actionWrite (shiftEntry d e) = actionWrite e := by
  obtain ⟨i, a⟩ := e
  cases a <;> rfl

theorem writes_shift (d : Int) (r : ExtractResult) : (r.shift d).writes = r.writes := by
  have hfun : actionWrite ∘ shiftEntry d = actionWrite := funext fun e => actionWrite_shiftEntry d e
  cases r <;>
    simp [ExtractResult.shift, ExtractResult.writes, ExtractResult.traceAll,
      List.filterMap_map, hfun]

/-- The run is invariant under shifting `start` and the running page
index by the same amount: only page indices in the result move. -/
theorem extractGo_shift (np : Option Int) (st : Int) (sr : Bool) (d : Int) (pages : List Page) :
    ∀ (page_idx n_skipped : Int),
      extractGo np (st + d) sr pages (page_idx + d) n_skipped
        = (extractGo np st sr pages page_idx n_skipped).shift d := by
  induction pages with
  | nil => intro page_idx sk; rfl
  | cons p rest ih =>
    intro page_idx sk
    rw [extractGo, extractGo]
    have harith : page_idx + d + 1 = page_idx + 1 + d := by ring
    rw [harith, processPage_shift d st (page_idx + 1) sr p]
    cases hp : processPage st sr (page_idx + 1) p with
    | error msg => rfl
    | ok a0 =>
      dsimp only
      rw [limitReached_shift np d st (page_idx + 1) (bumpSkipped a0 sk)]
      by_cases hl : limitReached np st (page_idx + 1) (bumpSkipped a0 sk) = true
      · rw [if_pos hl, if_pos hl]
        rfl
      · rw [if_neg hl, if_neg hl, ih (page_idx + 1) (bumpSkipped a0 sk), shift_contWith]

/-- Pages whose index is below `start` neither write nor affect the
writes of the remainder of the run. -/
theorem extractGo_skip_head (np : Option Int) (st : Int) (sr : Bool)
    (hnp : 0 ≤ np.getD 0) :
    ∀ (pre rest : List Page) (page_idx n_skipped : Int),
      0 ≤ n_skipped → page_idx + (pre.length : Int) < st →
      (extractGo np st sr (pre ++ rest) page_idx n_skipped).writes
        = (extractGo np st sr rest (page_idx + (pre.length : Int)) n_skipped).writes := by
  intro pre
  induction pre with
  | nil => intro rest page_idx sk _ _; simp
  | cons p pre ih =>
    intro rest page_idx sk hsk hlt
    have hlen : ((p :: pre).length : Int) = (pre.length : Int) + 1 := by
      push_cast [List.length_cons]
      ring
    have hidx : page_idx + 1 < st := by omega
    rw [List.cons_append, extractGo,
      processPage_before_start st sr (page_idx + 1) p hidx]
    dsimp only
    have hlim : limitReached np st (page_idx + 1)
        (bumpSkipped PageAction.skipped_before_start sk) = false := by
      cases np with
      | none => rfl
      | some n =>
        have hn : (0 : Int) ≤ n := by simpa using hnp
        show decide _ = false
        rw [decide_eq_false_iff_not]
        show ¬ (n + sk ≤ page_idx + 1 - st)
        omega
    rw [hlim]
    simp only [Bool.false_eq_true, if_false]
    rw [writes_contWith]
    show (extractGo np st sr (pre ++ rest) (page_idx + 1) sk).writes = _
    have harith : page_idx + ((p :: pre).length : Int) = page_idx + 1 + (pre.length : Int) := by
      rw [hlen]; ring
    rw [harith]
    exact ih rest (page_idx + 1) sk hsk (by omega)

theorem processPage_missing (st : Int) (sr : Bool) (idx : Int) (p : Page)
    (hlt : ¬ idx < st) (hpr : (sr && p.redirect) = false)
    (hmiss : p.title_elem = none ∨ p.text_elem = none) :
    processPage st sr idx p = Except.ok PageAction.skipped_missing := by
  unfold processPage
  rw [if_neg hlt, hpr]
  simp only [Bool.false_eq_true, if_false]
  rcases hmiss with h | h
  · rw [h]
  · rw [h]
    cases p.title_elem <;> rfl

theorem processPage_writes (st : Int) (sr : Bool) (idx : Int) (q : Page) (tq xq : String)
    (hlt : ¬ idx < st) (hqr : (sr && q.redirect) = false)
    (hqt : q.title_elem = some (some tq)) (hqx : q.text_elem = some (some xq)) :
    processPage st sr idx q
      = Except.ok (PageAction.wrote (sanitize_filename tq default_replacement ++ ".txt") xq) := by
  unfold processPage
  rw [if_neg hlt, hqr, hqt, hqx]
  rfl

theorem demoteAt_ne (j i : Int) (a : PageAction) (h : i ≠ j) : demoteAt j (i, a) = (i, a) := by
  unfold demoteAt
  rw [if_neg h]

theorem demoteAt_skip_before (j i : Int) :
    demoteAt j (i, PageAction.skipped_before_start) = (i, PageAction.skipped_before_start) := by
  unfold demoteAt
  split <;> rfl

theorem demoteAt_skip_missing (j i : Int) :
    demoteAt j (i, PageAction.skipped_missing) = (i, PageAction.skipped_missing) := by
  unfold demoteAt
  split <;> rfl

theorem demoteAt_wrote_self (j : Int) (fp c : String) :
    demoteAt j (j, PageAction.wrote fp c) = (j, PageAction.skipped_missing) := by
  unfold demoteAt
  rw [if_pos rfl]

theorem mapTrace_contWith (f : Int × PageAction → Int × PageAction) (idx : Int)
    (a : PageAction) (r : ExtractResult) :
    (contWith idx a r).mapTrace f
      = contWith (f (idx, a)).1 (f (idx, a)).2 (r.mapTrace f) := by
  cases r <;> rfl

theorem map_eq_self_of_fix {α : Type} (f : α → α) :
    ∀ l : List α, (∀ e ∈ l, f e = e) → l.map f = l
  | [], _ => rfl
  | a :: l, h => by
    rw [List.map_cons, h a (by simp), map_eq_self_of_fix f l (fun e he => h e (by simp [he]))]

/-- Demoting at an index at or below the running page index leaves a run
unchanged: all its trace entries sit at strictly larger indices. -/
theorem mapTrace_demote_id (np : Option Int) (st : Int) (sr : Bool) (pages : List Page)
    (page_idx sk j : Int) (hj : j ≤ page_idx) :
    (extractGo np st sr pages page_idx sk).mapTrace (demoteAt j)
      = extractGo np st sr pages page_idx sk := by
  have hfix : ∀ e ∈ (extractGo np st sr pages page_idx sk).traceAll, demoteAt j e = e := by
    intro e he
    obtain ⟨i, a⟩ := e
    obtain ⟨k, hk, -⟩ := extractGo_mem np st sr pages page_idx sk i a he
    exact demoteAt_ne j i a (by omega)
  cases hres : extractGo np st sr pages page_idx sk with
  | ok tr ret =>
    rw [hres] at hfix
    show ExtractResult.ok (tr.map (demoteAt j)) ret = _
    rw [map_eq_self_of_fix (demoteAt j) tr hfix]
  | err m tr =>
    rw [hres] at hfix
    show ExtractResult.err m (tr.map (demoteAt j)) = _
    rw [map_eq_self_of_fix (demoteAt j) tr hfix]

/-- Substituting, at any fixed position of the dump, a page with a
missing title or text element (and not skipped as a redirect) for a
fully present writable page changes the run only by demoting that one
page's write to a missing-element skip: all other trace entries, the
break position and the returned index are identical, so the substituted
page raises nothing, writes nothing, is not counted in
`n_skipped_pages`, and still consumes one slot of the limit window. -/
theorem extractGo_demote (np : Option Int) (st : Int) (sr : Bool) (p q : Page)
    (tq xq : String)
    (hpr : (sr && p.redirect) = false) (hqr : (sr && q.redirect) = false)
    (hmiss : p.title_elem = none ∨ p.text_elem = none)
    (hqt : q.title_elem = some (some tq)) (hqx : q.text_elem = some (some xq)) :
    ∀ (pre post : List Page) (page_idx sk : Int),
      extractGo np st sr (pre ++ p :: post) page_idx sk
        = (extractGo np st sr (pre ++ q :: post) page_idx sk).mapTrace
            (demoteAt (page_idx + (pre.length : Int) + 1)) := by
  intro pre
  induction pre with
  | nil =>
    intro post page_idx sk
    simp only [List.nil_append, List.length_nil, Nat.cast_zero, add_zero]
    rw [extractGo, extractGo]
    by_cases hlt : page_idx + 1 < st
    · rw [processPage_before_start st sr (page_idx + 1) p hlt,
        processPage_before_start st sr (page_idx + 1) q hlt]
      dsimp only
      by_cases hl : limitReached np st (page_idx + 1)
          (bumpSkipped PageAction.skipped_before_start sk) = true
      · rw [if_pos hl]
        show _ = ExtractResult.ok [demoteAt (page_idx + 1)
          (page_idx + 1, PageAction.skipped_before_start)] (page_idx + 1)
        rw [demoteAt_skip_before]
      · rw [if_neg hl, mapTrace_contWith, demoteAt_skip_before,
          mapTrace_demote_id np st sr post (page_idx + 1) _ (page_idx + 1) le_rfl]
    · rw [processPage_missing st sr (page_idx + 1) p hlt hpr hmiss,
        processPage_writes st sr (page_idx + 1) q tq xq hlt hqr hqt hqx]
      dsimp only
      by_cases hl : limitReached np st (page_idx + 1) (bumpSkipped PageAction.skipped_missing sk)
          = true
      · have hl2 : limitReached np st (page_idx + 1) (bumpSkipped (PageAction.wrote
            (sanitize_filename tq default_replacement ++ ".txt") xq) sk) = true := hl
        rw [if_pos hl, if_pos hl2]
        show _ = ExtractResult.ok [demoteAt (page_idx + 1) (page_idx + 1, PageAction.wrote
          (sanitize_filename tq default_replacement ++ ".txt") xq)] (page_idx + 1)
        rw [demoteAt_wrote_self]
      · have hl2 : ¬ limitReached np st (page_idx + 1) (bumpSkipped (PageAction.wrote
            (sanitize_filename tq default_replacement ++ ".txt") xq) sk) = true := hl
        rw [if_neg hl, if_neg hl2, mapTrace_contWith, demoteAt_wrote_self,
          mapTrace_demote_id np st sr post (page_idx + 1) _ (page_idx + 1) le_rfl]
        rfl
  | cons hd pre ih =>
    intro post page_idx sk
    have hj : page_idx + ((hd :: pre).length : Int) + 1
        = page_idx + 1 + (pre.length : Int) + 1 := by
      push_cast [List.length_cons]
      ring
    have hne : page_idx + 1 ≠ page_idx + 1 + (pre.length : Int) + 1 := by
      have h0 : (0 : Int) ≤ (pre.length : Int) := Int.natCast_nonneg _
      omega
    rw [hj, List.cons_append, List.cons_append, extractGo, extractGo]
    cases hp : processPage st sr (page_idx + 1) hd with
    | error msg => rfl
    | ok a0 =>
      dsimp only
      by_cases hl : limitReached np st (page_idx + 1) (bumpSkipped a0 sk) = true
      · rw [if_pos hl, if_pos hl]
        show _ = ExtractResult.ok [demoteAt (page_idx + 1 + (pre.length : Int) + 1)
          (page_idx + 1, a0)] (page_idx + 1)
        rw [demoteAt_ne _ _ _ hne]
      · rw [if_neg hl, if_neg hl, mapTrace_contWith, demoteAt_ne _ _ _ hne,
          ih post (page_idx + 1) (bumpSkipped a0 sk)]
        try rfl

/-! ### Claim theorems -/

/-- C2: for every input string, `sanitize_filename` called with the
default replacement returns a string that contains none of the nine
characters `\ / * ? : " < > |`. -/
theorem c2_sanitize_removes_illegal (title : String) :
    (sanitize_filename title default_replacement).data.all (fun c => !(isIllegalChar c)) = true :=
  sanitizeChars_all_ok default_replacement.data (by decide) title.data

/-- C9: a string already containing none of the nine illegal characters
is returned unchanged by `sanitize_filename` (whatever the replacement),
and consequently `sanitize_filename` with the default replacement is
idempotent. -/
theorem c9_sanitize_passthrough_idempotent (s repl : String) :
    (s.data.all (fun c => !(isIllegalChar c)) = true → sanitize_filename s repl = s) ∧
    sanitize_filename (sanitize_filename s default_replacement) default_replacement
      = sanitize_filename s default_replacement := by
  constructor
  · intro h
    show String.mk (sanitizeChars repl.data s.data) = s
    rw [sanitizeChars_id repl.data s.data h]
  · show String.mk (sanitizeChars default_replacement.data
        (sanitize_filename s default_replacement).data)
      = sanitize_filename s default_replacement
    rw [sanitizeChars_id default_replacement.data
      (sanitize_filename s default_replacement).data
      (sanitizeChars_all_ok default_replacement.data (by decide) s.data)]

/-- Witness for C9 at a concrete input. -/
theorem c9_witness :
    sanitize_filename "ab" "x" = "ab" ∧
    sanitize_filename (sanitize_filename "ab" default_replacement) default_replacement
      = sanitize_filename "ab" default_replacement :=
  ⟨(c9_sanitize_passthrough_idempotent "ab" "x").1 (by decide),
   (c9_sanitize_passthrough_idempotent "ab" "x").2⟩

/-- C1 is false of the code: with `start = 0` and `n_pages = 1`, a dump
of two well-formed non-redirect pages produces two output files, not
`min(n_pages, K - start) = 1`.  The limit check on line 77 compares
`page_idx - start` (one less than the number of pages already processed
beyond `start`) against `n_pages + n_skipped_pages`, so it stops only
after page index `start + n_pages` has already been processed and
written: the code writes `min(n_pages + 1, K - start)` files. -/
theorem c1_limit_off_by_one :
    (extract_pages_from_wikidump
        [⟨some (some "A"), some (some "x"), false⟩, ⟨some (some "B"), some (some "y"), false⟩]
        (some 1) 0 true).writes
      = [("A.txt", "x"), ("B.txt", "y")] := by decide

/-- C10: a non-redirect page at or after the start offset whose title
and text elements are present but whose text content is `None` makes
the run raise a `TypeError` at the file write and abort: no trace is
produced for it or for any later page.  The hypothesis
`0 ≤ n_pages + start` (vacuous for `n_pages = None`) confines the
statement to the region where the page is reached at all: with
`n_pages + start ≤ -1` the source's line-77 check already holds at the
end event of the page's title element, with `page_idx = -1`, so the
real run breaks there and returns normally instead of aborting; that
degenerate pre-first-page break is outside this page-list model (see
the module docstring). -/
theorem c10_text_none_aborts (post : List Page) (n_pages : Option Int) (sr : Bool)
    (start : Int) (t : String) (hst : start ≤ 0)
    (_hnp : ∀ n, n_pages = some n → 0 ≤ n + start) :
    extract_pages_from_wikidump ((⟨some (some t), some none, false⟩ : Page) :: post)
        n_pages start sr
      = ExtractResult.err writeNoneError [] := by
  show extractGo n_pages start sr (_ :: post) (-1) 0 = _
  rw [extractGo]
  have h0 : ¬ ((-1 : Int) + 1 < start) := by omega
  simp only [processPage, if_neg h0, Bool.and_false, Bool.false_eq_true, if_false]

/-- Witness for C10 at a concrete input with a present, positive limit. -/
theorem c10_witness :
    extract_pages_from_wikidump [(⟨some (some "T"), some none, false⟩ : Page)] (some 1) 0 true
      = ExtractResult.err writeNoneError [] :=
  c10_text_none_aborts [] (some 1) true 0 "T" (by decide)
    (fun n h => by simp at h; omega)

/-- C6: every page element is processed at the index equal to its
zero-based position in the dump, so each page element (redirects
included) increments the page index by exactly one, and a skipped
redirect does not change the indices of subsequent pages. -/
theorem c6_page_index_is_position (pages : List Page) (np : Option Int) (st : Int) (sr : Bool)
    (i : Int) (a : PageAction)
    (h : (i, a) ∈ (extract_pages_from_wikidump pages np st sr).traceAll) :
    ∃ j : Nat, i = (j : Int) ∧ ∃ p, pages.get? j = some p ∧ processPage st sr i p = Except.ok a := by
  obtain ⟨j, hj, p, hp, hact⟩ := extractGo_mem np st sr pages (-1) 0 i a h
  exact ⟨j, by omega, p, hp, hact⟩

/-- Witness for C6: in a dump whose first page is a redirect, the second
page is still processed at index 1. -/
theorem c6_witness :
    ∃ j : Nat, (1 : Int) = (j : Int) ∧ ∃ p, [pageRedirect, pageGood].get? j = some p ∧
      processPage 0 true 1 p = Except.ok (PageAction.wrote "T.txt" "x") :=
  c6_page_index_is_position [pageRedirect, pageGood] none 0 true 1
    (PageAction.wrote "T.txt" "x") (by decide)

/-- C3: with redirect skipping enabled, every file write of a run comes
from a non-redirect page of the dump (at the position named by the
write's page index), so a page carrying a redirect marker never produces
an output file, wherever it sits relative to the start offset and the
limit. -/
theorem c3_redirect_pages_never_write (pages : List Page) (np : Option Int) (st : Int)
    (i : Int) (fp c : String)
    (h : (i, PageAction.wrote fp c) ∈ (extract_pages_from_wikidump pages np st true).traceAll) :
    ∃ p, pages.get? i.toNat = some p ∧ p.redirect = false ∧ p.text_elem = some (some c) ∧
      ∃ t, p.title_elem = some (some t) ∧ fp = sanitize_filename t default_replacement ++ ".txt" := by
  obtain ⟨j, hj, p, hp, hact⟩ := extractGo_mem np st true pages (-1) 0 i _ h
  have hjt : i.toNat = j := by omega
  obtain ⟨te, xe, rd⟩ := p
  by_cases hlt : i < st
  · rw [processPage, if_pos hlt] at hact
    simp at hact
  · rw [processPage, if_neg hlt] at hact
    cases rd with
    | true => simp at hact
    | false =>
      simp only [Bool.and_false, Bool.false_eq_true, if_false] at hact
      rcases te with _ | tt
      · simp at hact
      · rcases xe with _ | xx
        · simp at hact
        · rcases tt with _ | t
          · simp at hact
          · rcases xx with _ | txt
            · simp at hact
            · simp only [Except.ok.injEq, PageAction.wrote.injEq] at hact
              exact ⟨⟨some (some t), some (some txt), false⟩, by rw [hjt]; exact hp, rfl,
                by rw [hact.2], t, rfl, hact.1.symm⟩

/-- Witness for C3 at a concrete run. -/
theorem c3_witness :
    ∃ p, [pageRedirect, pageGood].get? (1 : Int).toNat = some p ∧ p.redirect = false ∧
      p.text_elem = some (some "x") ∧
      ∃ t, p.title_elem = some (some t) ∧
        "T.txt" = sanitize_filename t default_replacement ++ ".txt" :=
  c3_redirect_pages_never_write [pageRedirect, pageGood] none 0 1 "T.txt" "x" (by decide)

/-- C5: a run over a dump with no page elements returns `-1`, and in
general a successful run returns `-1 + k` where the first `k` pages are
exactly the page elements the run encountered: the trace has one entry
per encountered page and the run is already complete on those `k` pages,
so the returned value is the zero-based index of the last page element
encountered before finishing or stopping at the limit. -/
theorem c5_returns_last_page_index (pages : List Page) (np : Option Int) (st : Int) (sr : Bool)
    (tr : List (Int × PageAction)) (ret : Int) :
    extract_pages_from_wikidump [] np st sr = ExtractResult.ok [] (-1) ∧
    (extract_pages_from_wikidump pages np st sr = ExtractResult.ok tr ret →
      ∃ k : Nat, k ≤ pages.length ∧ ret = -1 + (k : Int) ∧ tr.length = k ∧
        extract_pages_from_wikidump (pages.take k) np st sr = ExtractResult.ok tr ret) :=
  ⟨rfl, fun h => extractGo_take np st sr pages (-1) 0 tr ret h⟩

/-- Witness for C5 at a concrete run. -/
theorem c5_witness :
    ∃ k : Nat, k ≤ [pageGood].length ∧ (0 : Int) = -1 + (k : Int) ∧
      [((0 : Int), PageAction.wrote "T.txt" "x")].length = k ∧
      extract_pages_from_wikidump ([pageGood].take k) none 0 true
        = ExtractResult.ok [(0, PageAction.wrote "T.txt" "x")] 0 :=
  (c5_returns_last_page_index [pageGood] none 0 true
    [(0, PageAction.wrote "T.txt" "x")] 0).2 (by decide)

/-- C8: replaying the writes of a run in document order (each write
opening with truncation, hence overwriting), the final content of any
file name is the content of the last write with that name, i.e. the
text of the last page whose sanitized title produced that name; earlier
colliding writes are overwritten. -/
theorem c8_collision_last_write_wins (pages : List Page) (np : Option Int) (st : Int)
    (sr : Bool) (name : String) :
    replayWrites ((extract_pages_from_wikidump pages np st sr).writes) name
      = ((extract_pages_from_wikidump pages np st sr).writes.reverse.find?
          (fun w => decide (w.1 = name))).map Prod.snd := by
  show ((extract_pages_from_wikidump pages np st sr).writes.foldl writeFile emptyFS) name = _
  rw [foldl_writeFile_lookup]
  cases hfind : (extract_pages_from_wikidump pages np st sr).writes.reverse.find?
      (fun w => decide (w.1 = name)) with
  | some v => rfl
  | none => rfl

/-- C4: with a start offset equal to the number of leading pages and a
non-negative (or absent) page limit, the leading pages produce no output
file and do not count toward the limit: the run writes exactly what a
run over the remaining pages with start offset `0` writes. -/
theorem c4_start_offset_skipped (pre post : List Page) (np : Option Int) (sr : Bool)
    (hnp : 0 ≤ np.getD 0) :
    (extract_pages_from_wikidump (pre ++ post) np (pre.length : Int) sr).writes
      = (extract_pages_from_wikidump post np 0 sr).writes := by
  show (extractGo np (pre.length : Int) sr (pre ++ post) (-1) 0).writes = _
  rw [extractGo_skip_head np (pre.length : Int) sr hnp pre post (-1) 0 le_rfl (by omega)]
  have h1 : (pre.length : Int) = 0 + (pre.length : Int) := by ring
  nth_rewrite 1 [h1]
  rw [extractGo_shift np 0 sr (pre.length : Int) post (-1) 0, writes_shift]
  rfl

/-- Witness for C4 at a concrete run. -/
theorem c4_witness :
    (extract_pages_from_wikidump ([pageRedirect] ++ [pageGood]) (some 1)
        (([pageRedirect] : List Page).length : Int) true).writes
      = (extract_pages_from_wikidump [pageGood] (some 1) 0 true).writes :=
  c4_start_offset_skipped [pageRedirect] [pageGood] (some 1) true (by decide)

/-- C7: a page at any fixed position that is not skipped as a redirect
and is missing its title or its text element behaves exactly like a
fully present page at the same position except that its write is
replaced by a silent skip: the rest of the trace, the error behaviour,
the break position and the returned index are unchanged, so no file is
written for it, no exception is raised by it, `n_skipped_pages` is not
adjusted, and the page still consumes one slot of the limit window. -/
theorem c7_missing_elements_silently_skipped (pre post : List Page) (np : Option Int)
    (st : Int) (sr : Bool) (p q : Page) (tq xq : String)
    (hpr : (sr && p.redirect) = false) (hqr : (sr && q.redirect) = false)
    (hmiss : p.title_elem = none ∨ p.text_elem = none)
    (hqt : q.title_elem = some (some tq)) (hqx : q.text_elem = some (some xq)) :
    extract_pages_from_wikidump (pre ++ p :: post) np st sr
      = (extract_pages_from_wikidump (pre ++ q :: post) np st sr).mapTrace
          (demoteAt (pre.length : Int)) := by
  show extractGo np st sr (pre ++ p :: post) (-1) 0 = _
  rw [extractGo_demote np st sr p q tq xq hpr hqr hmiss hqt hqx pre post (-1) 0]
  have harith : (-1 : Int) + (pre.length : Int) + 1 = (pre.length : Int) := by ring
  rw [harith]
  rfl

/-- Witness for C7 at a concrete run. -/
theorem c7_witness :
    extract_pages_from_wikidump ([] ++ pageMissing :: []) none 0 true
      = (extract_pages_from_wikidump ([] ++ pageGood :: []) none 0 true).mapTrace
          (demoteAt ((([] : List Page).length : Int))) :=
  c7_missing_elements_silently_skipped [] [] none 0 true pageMissing pageGood "T" "x"
    rfl rfl (Or.inl rfl) rfl rfl

end ExtractData
